import Mathlib

/-!
# Verification of the `argparser-rs` command-line parsing library

This file gives a shallow embedding of the parsing engine of the
`argparser` Rust crate (`src/argparser.rs`, `src/slide.rs`) and proves
properties of it.

Modelling conventions:
* Rust `String` is Lean `String`; `str::len` (UTF-8 byte length) is
  `String.utf8ByteSize`, `str::chars` is `String.data`.
* `char::is_alphabetic` is modelled by `Char.isAlpha` (the ASCII
  fragment of Rust's Unicode `Alphabetic` property; all concrete
  inputs considered here are ASCII).
* `HashMap<String, Arg>` is modelled as an association list
  `List (String × Arg)`; the map's (unspecified) iteration order is
  the list order, and `insert` removes the old binding for the key and
  appends the new one ("last write wins" on a name).
* `Vec<&String>` (`taken_up`) is modelled as `List String`; Rust's
  `Vec::contains` on `&String` compares by `String` value equality,
  which is exactly `List.contains` here.
* Fallible code (`Result<_, String>`) is `Except String _`.
-/

namespace Argparse

/-- The `ArgType` enum of `src/argparser.rs` (lines 15-30).  The `u8`
positional index is modelled as `Nat` (no arithmetic is performed on it). -/
inductive ArgType where
  | option
  | flag
  | list
  | dict
  | positional (idx : Nat)
  deriving DecidableEq, Repr

/-- `ArgType::is_positional` (lines 33-38). -/
def ArgType.is_positional : ArgType → Bool
  | .positional _ => true
  | _ => false

/-- The `Arg` struct (lines 56-63); `count : u16` is modelled as `Nat`
(the count is only ever incremented). -/
structure Arg where
  val : Option String
  count : Nat
  required : Bool
  flag : Char
  help : String
  type_ : ArgType
  deriving DecidableEq, Repr

/-- The `ArgParser` struct (lines 68-72). -/
structure ArgParser where
  arguments : List (String × Arg)
  name : String
  done : Bool
  deriving DecidableEq, Repr

/-- The `ArgParseResults` struct (lines 304-307). -/
structure ArgParseResults where
  arguments : List (String × Arg)
  name : String
  deriving DecidableEq, Repr

/-- `ArgParser::add_opt` (lines 107-121): builds an `Arg` whose value is
seeded with the declared default and inserts it under `name`,
overwriting any previous entry with that name (`HashMap::insert`). -/
def ArgParser.add_opt (p : ArgParser) (name : String) (default : Option String)
    (flag : Char) (required : Bool) (help : String) (type_ : ArgType) : ArgParser :=
  { p with arguments :=
      p.arguments.filter (fun kv => kv.1 != name) ++
        [(name, ⟨default, 0, required, flag, help, type_⟩)] }

/-- `ArgParser::new` (lines 81-92): starts from an empty registry and
registers the built-in `help` switch. -/
def ArgParser.new (name : String) : ArgParser :=
  ArgParser.add_opt ⟨[], name, false⟩ "help" (some "false") 'h' false
    "Show this help message" .flag

/-- `is_flag` (lines 483-497): at least two bytes, first char `-`,
second char alphabetic.  (The Rust indexing `v[1]` is only reached when
`v[0] == '-'`, in which case a second char exists, so no panic is
reachable and the wildcard arm is dead code.) -/
def is_flag (s : String) : Bool :=
  if s.utf8ByteSize < 2 then false
  else
    match s.data with
    | c0 :: c1 :: _ => c0 == '-' && c1.isAlpha
    | _ => false

/-- `is_long_flag` (lines 499-511): at least three bytes and the first
two chars are equal and `-`.  (For a token of at least three bytes but a
single char — e.g. `"€"` — the Rust code panics on `v[1]`; the wildcard
arm returning `false` stands in for that unreachable-for-ASCII case.) -/
def is_long_flag (s : String) : Bool :=
  if s.utf8ByteSize < 3 then false
  else
    match s.data with
    | c0 :: c1 :: _ => c0 == c1 && c1 == '-'
    | _ => false

/-- `format!("-{}", c)` — a one-dash short-flag token. -/
def flagTok (c : Char) : String := String.mk ['-', c]

/-- `format!("--{}", name)` — a long-flag token. -/
def longTok (name : String) : String := "--" ++ name

/-- The explosion of a bundled short flag: one `-c` token per char
after the leading dash (`x.chars().skip(1)`, line 523-525). -/
def explode (x : String) : List String := (x.data.drop 1).map flagTok

/-- `separate_flags` (lines 513-533). -/
def separate_flags (og : List String) : List String :=
  og.flatMap (fun x =>
    if is_long_flag x then [x]
    else if is_flag x then
      if x.utf8ByteSize == 2 then [x] else explode x
    else [x])

/-- The `Slide` iterator of `src/slide.rs`: every token paired with the
(`none` for the last token) remainder slice strictly after it. -/
def slide : List α → List (α × Option (List α))
  | [] => []
  | [x] => [(x, none)]
  | x :: y :: rest => (x, some (y :: rest)) :: slide (y :: rest)

/-- The error message of lines 187 and 212. -/
def missingValueMsg (name : String) : String :=
  "This option `" ++ name ++ "` requires a value you have not provided"

/-- The window filter of line 177:
`f == format!("-{}", my_arg.flag) || f == format!("--{}", argname)`. -/
def matchesTok (argname : String) (fl : Char) (f : String) : Bool :=
  f == flagTok fl || f == longTok argname

/-- The `fold` of lines 204-208: append every element followed by one
space (note the trailing space). -/
def joinSpc (xs : List String) : String :=
  xs.foldl (fun acc e => acc ++ e ++ " ") ""

/-- Processing of one option over the windowed token stream: the inner
loop of `ArgParser::parse` (lines 177-219), threading the option's
working copy and the `taken_up` list, with the early `return Err`s.
(`slide` never yields `some []`, so grouping that case with `none` in
the `Option` arm is faithful.) -/
def procOption (argname : String) :
    List (String × Option (List String)) → Arg → List String →
      Except String (Arg × List String)
  | [], arg, taken => .ok (arg, taken)
  | (f, rest) :: ws, arg, taken =>
    if matchesTok argname arg.flag f then
      match arg.type_ with
      | .flag =>
          procOption argname ws
            { arg with count := arg.count + 1, val := some "true" } (taken ++ [f])
      | .option =>
          match rest with
          | some (r0 :: _) =>
              if is_flag r0 || is_long_flag r0 then .error (missingValueMsg argname)
              else
                procOption argname ws
                  { arg with count := arg.count + 1, val := some r0 }
                  (taken ++ [f] ++ [r0])
          | _ => .error (missingValueMsg argname)
      | .list | .dict =>
          match rest with
          | some r =>
              procOption argname ws
                { arg with count := arg.count + 1,
                           val := some (joinSpc (r.takeWhile
                             (fun x => !(is_flag x || is_long_flag x)))) }
                (taken ++ [f] ++ r.takeWhile (fun x => !(is_flag x || is_long_flag x)))
          | none => .error (missingValueMsg argname)
      | .positional _ =>
          procOption argname ws { arg with count := arg.count + 1 } (taken ++ [f])
    else procOption argname ws arg taken

/-- The flag-option resolution phase: the outer loop of lines 176-220,
processing every registry entry (in the modelled iteration order) and
threading `taken_up`.  Any `Err` aborts the whole parse. -/
def phase1 : List (String × Arg) → List String → List String →
    Except String (List (String × Arg) × List String)
  | [], _, taken => .ok ([], taken)
  | (nm, a) :: rest, argvec, taken =>
    match procOption nm (slide argvec) a taken with
    | .error e => .error e
    | .ok (a', taken') =>
      match phase1 rest argvec taken' with
      | .error e => .error e
      | .ok (na, taken'') => .ok ((nm, a') :: na, taken'')

/-- The not-yet-consumed tokens available to positional resolution
(line 224-225): skip the program name, drop every token whose *text*
occurs in `taken` (`Vec::contains` compares `String` values). -/
def availTokens (argvec taken : List String) : List String :=
  (argvec.drop 1).filter (fun e => !(taken.contains e))

/-- The positional-resolution phase (lines 222-237): every positional
option whose value is still unset receives the `idx`-th available
token, if any. -/
def phase2 (na : List (String × Arg)) (avail : List String) : List (String × Arg) :=
  na.map (fun kv =>
    if kv.2.val.isNone then
      match kv.2.type_ with
      | .positional idx => (kv.1, { kv.2 with val := avail.get? idx })
      | _ => kv
    else kv)

/-- `ArgParser::parse` after the normalization of line 171: phases 1
and 2 followed by the required-arguments validation (lines 239-246). -/
def parseCore (p : ArgParser) (argvec : List String) : Except String ArgParseResults :=
  match phase1 p.arguments argvec [] with
  | .error e => .error e
  | .ok (na, taken) =>
    if (phase2 na (availTokens argvec taken)).all
        (fun kv => !kv.2.required || kv.2.val.isSome) then
      .ok ⟨phase2 na (availTokens argvec taken), p.name⟩
    else .error "Not all required arguments are found"

/-- `ArgParser::parse` (lines 164-247). -/
def parse (p : ArgParser) (args : List String) : Except String ArgParseResults :=
  if p.arguments.length == 0 || p.done then .error "No arguments given to parse"
  else parseCore p (separate_flags args)

/-- The Rust method call `self.parse(args)` takes `self` by shared
reference: the receiver comes back unchanged next to the result. -/
def parseCall (p : ArgParser) (args : List String) :
    Except String ArgParseResults × ArgParser :=
  (parse p args, p)

/-- Statement helper: the resolved raw value of option `name` in a parse
outcome (`none` if the parse failed or the name is unknown). -/
def resolvedVal (r : Except String ArgParseResults) (name : String) :
    Option (Option String) :=
  match r with
  | .ok res => (res.arguments.lookup name).map Arg.val
  | .error _ => none

/-- Helper for `splitWs`: scan the char list, accumulating the current
chunk in reverse; whitespace ends a chunk, empty chunks are dropped. -/
def wsSplit : List Char → List Char → List String
  | [], acc => if acc.isEmpty then [] else [String.mk acc.reverse]
  | c :: cs, acc =>
    if c.isWhitespace then
      if acc.isEmpty then wsSplit cs [] else String.mk acc.reverse :: wsSplit cs []
    else wsSplit cs (c :: acc)

/-- `str::split_whitespace` (ASCII-whitespace fragment): the maximal
whitespace-free chunks of the string, in order, with no empty chunks. -/
def splitWs (s : String) : List String := wsSplit s.data []

/-- The fold closure of `vec_parser` (lines 416-429). -/
def vecStep : Option (List α) → Nat × Option α → Option (List α)
  | acc, ie =>
    match ie.2 with
    | some x => if ie.1 == 0 then some [x] else acc.map (fun v => v ++ [x])
    | none => none

/-- `vec_parser` (lines 412-430), parametrised by the element type's
`FromStr` parse `pf`. -/
def vecParse (pf : String → Option α) (s : String) : Option (List α) :=
  ((splitWs s).map pf).enum.foldl vecStep none

/-! ## Statement helpers

Definitions used to *state* properties of the model; they are not part
of the embedding itself. -/

/-- A window after a matched `Value`-kind flag on which the code errors:
the remainder is absent, or its first token is flag-shaped. -/
def windowBad : Option (List String) → Bool
  | some (r0 :: _) => is_flag r0 || is_long_flag r0
  | _ => true

/-- The first token of a (present, nonempty) remainder. -/
def restHead : Option (List String) → String
  | some (r0 :: _) => r0
  | _ => ""

/-- The windows of the stream that match an option (flag or long name). -/
def mwindows (argname : String) (fl : Char) (ws : List (String × Option (List String))) :
    List (String × Option (List String)) :=
  ws.filter (fun w => matchesTok argname fl w.1)

/-- Tokens a `Value`-kind option consumes: per match, the flag token and
exactly one following token. -/
def optConsumed (mws : List (String × Option (List String))) : List String :=
  mws.flatMap (fun w => [w.1, restHead w.2])

/-- Last-match-wins value of a `Value`-kind option: the default if no
window matched, else the first remainder token of the last match. -/
def lastVal : List (String × Option (List String)) → Option String → Option String
  | [], d => d
  | w :: l, _ => lastVal l (some (restHead w.2))

/-- Not flag-shaped: the `take_while` predicate of lines 203 and 210. -/
def notFlagTok (x : String) : Bool := !(is_flag x || is_long_flag x)

/-- The run of value tokens a `List`/`Dict` match takes: the remainder
up to (not including) the first flag-shaped token. -/
def takeOf (w : String × Option (List String)) : List String :=
  (w.2.getD []).takeWhile notFlagTok

/-- Tokens a `List`/`Dict`-kind option consumes: per match, the flag
token and the taken run. -/
def listConsumed (mws : List (String × Option (List String))) : List String :=
  mws.flatMap (fun w => w.1 :: takeOf w)

/-- Last-match-wins value of a `List`/`Dict`-kind option: the default
if no window matched, else the joined taken run of the last match. -/
def listLastVal : List (String × Option (List String)) → Option String → Option String
  | [], d => d
  | w :: l, _ => listLastVal l (some (joinSpc (takeOf w)))

/-- The per-token image described by the specification's normalization
rule: a short flag of byte length `> 2` explodes, everything else maps
to itself. -/
def specTokenImage (x : String) : List String :=
  if is_flag x && !is_long_flag x && decide (2 < x.utf8ByteSize) then explode x else [x]

/-- The specification's long-flag criterion: the token's first two
characters are both `-`. -/
def firstTwoAreDashes (s : String) : Bool :=
  match s.data with
  | c0 :: c1 :: _ => c0 == '-' && c1 == '-'
  | _ => false

/-- A concrete `FromStr`-style element parse (`usize::from_str`). -/
def natPf (s : String) : Option Nat := s.toNat?

/-- Every chunk of `l` parses under `natPf`. -/
def natAllSome (l : List String) : Bool := l.all (fun c => (natPf c).isSome)

instance exceptDecEq {ε α : Type} [DecidableEq ε] [DecidableEq α] :
    DecidableEq (Except ε α) := fun x y =>
  match x, y with
  | .ok a, .ok b =>
    if h : a = b then .isTrue (by rw [h]) else .isFalse (fun hc => by cases hc; exact h rfl)
  | .error a, .error b =>
    if h : a = b then .isTrue (by rw [h]) else .isFalse (fun hc => by cases hc; exact h rfl)
  | .ok _, .error _ => .isFalse (fun hc => by cases hc)
  | .error _, .ok _ => .isFalse (fun hc => by cases hc)

/-! ## Token-classifier lemmas -/

theorem is_flag_eq_true_iff (s : String) :
    is_flag s = true ↔
      2 ≤ s.utf8ByteSize ∧ ∃ c1 tl, s.data = '-' :: c1 :: tl ∧ c1.isAlpha = true := by
  unfold is_flag
  split
  · rename_i h
    constructor
    · intro hc; cases hc
    · rintro ⟨h2, -⟩; omega
  · rename_i h
    split
    · rename_i c0 c1 tl heq
      simp only [Bool.and_eq_true, beq_iff_eq]
      constructor
      · rintro ⟨rfl, h1⟩; exact ⟨by omega, c1, tl, heq, h1⟩
      · rintro ⟨-, c1', tl', heq', h1'⟩
        rw [heq] at heq'
        obtain ⟨rfl, rfl, rfl⟩ := by simpa using heq'
        exact ⟨rfl, h1'⟩
    · rename_i h hne
      constructor
      · intro hc; cases hc
      · rintro ⟨-, c1, tl, heq, -⟩
        exact absurd heq (hne '-' c1 tl)

theorem is_long_flag_eq_true_iff (s : String) :
    is_long_flag s = true ↔ 3 ≤ s.utf8ByteSize ∧ ∃ tl, s.data = '-' :: '-' :: tl := by
  unfold is_long_flag
  split
  · rename_i h
    constructor
    · intro hc; cases hc
    · rintro ⟨h3, -⟩; omega
  · rename_i h
    split
    · rename_i c0 c1 tl heq
      simp only [Bool.and_eq_true, beq_iff_eq]
      constructor
      · rintro ⟨rfl, rfl⟩; exact ⟨by omega, tl, heq⟩
      · rintro ⟨-, tl', heq'⟩
        rw [heq] at heq'
        obtain ⟨rfl, rfl, rfl⟩ := by simpa using heq'
        exact ⟨rfl, rfl⟩
    · rename_i h hne
      constructor
      · intro hc; cases hc
      · rintro ⟨-, tl, heq⟩
        exact absurd heq (hne '-' '-' tl)

/-- Long flags are never short flags: the second char `-` is not alphabetic. -/
theorem is_flag_of_long (s : String) (h : is_long_flag s = true) : is_flag s = false := by
  rcases (is_long_flag_eq_true_iff s).1 h with ⟨-, tl, hd⟩
  cases hf : is_flag s
  · rfl
  · rcases (is_flag_eq_true_iff s).1 hf with ⟨-, c1, tl', hd', halpha⟩
    rw [hd] at hd'
    obtain ⟨rfl, rfl⟩ := by simpa using hd'
    cases halpha

theorem is_flag_byte_len (s : String) (h : is_flag s = true) : 2 ≤ s.utf8ByteSize :=
  ((is_flag_eq_true_iff s).1 h).1

theorem firstTwoAreDashes_eq_true_iff (s : String) :
    firstTwoAreDashes s = true ↔ ∃ tl, s.data = '-' :: '-' :: tl := by
  unfold firstTwoAreDashes
  split
  · rename_i c0 c1 tl heq
    simp only [Bool.and_eq_true, beq_iff_eq]
    constructor
    · rintro ⟨rfl, rfl⟩; exact ⟨tl, heq⟩
    · rintro ⟨tl', heq'⟩
      rw [heq] at heq'
      obtain ⟨rfl, rfl, rfl⟩ := by simpa using heq'
      exact ⟨rfl, rfl⟩
  · rename_i hne
    constructor
    · intro hc; cases hc
    · rintro ⟨tl, heq⟩
      exact absurd heq (hne '-' '-' tl)

/-- Claim C6, counterexample: The token `"--"` has its first two
characters both `-`, yet `is_long_flag` classifies it as *not* a long
flag (its byte length 2 fails the `len >= 3` test of line 500). -/
theorem c6_long_flag_counterexample :
    firstTwoAreDashes "--" = true ∧ is_long_flag "--" = false := by decide

/-- Claim C6, amended: `is_long_flag` returns `true` iff the token is at
least three bytes long *and* its first two characters are both `-`:
the byte-length guard additionally rejects the two-byte token `"--"`. -/
theorem c6_long_flag_classifier (s : String) :
    is_long_flag s = (decide (3 ≤ s.utf8ByteSize) && firstTwoAreDashes s) := by
  cases h : is_long_flag s
  · rcases h3 : decide (3 ≤ s.utf8ByteSize) with - | -
    · simp
    · rcases h2 : firstTwoAreDashes s with - | -
      · simp
      · exfalso
        rcases (firstTwoAreDashes_eq_true_iff s).1 h2 with ⟨tl, hd⟩
        have : is_long_flag s = true :=
          (is_long_flag_eq_true_iff s).2 ⟨by simpa using h3, tl, hd⟩
        rw [h] at this; cases this
  · rcases (is_long_flag_eq_true_iff s).1 h with ⟨h3, tl, hd⟩
    have h2 : firstTwoAreDashes s = true := (firstTwoAreDashes_eq_true_iff s).2 ⟨tl, hd⟩
    simp [h2, h3]

/-! ## C5: flag normalization -/

theorem specTokenImage_ne_nil (x : String) : specTokenImage x ≠ [] := by
  unfold specTokenImage
  split
  · rename_i h
    simp only [Bool.and_eq_true] at h
    rcases (is_flag_eq_true_iff x).1 h.1.1 with ⟨-, c1, tl, hd, -⟩
    simp [explode, hd]
  · simp

theorem sepImage_eq_specTokenImage (x : String) :
    (if is_long_flag x then [x]
     else if is_flag x then
       if x.utf8ByteSize == 2 then [x] else explode x
     else [x]) = specTokenImage x := by
  unfold specTokenImage
  rcases hl : is_long_flag x with - | -
  · rcases hf : is_flag x with - | -
    · simp [hl, hf]
    · rcases h2 : x.utf8ByteSize == 2 with - | -
      · have hgt : 2 < x.utf8ByteSize := by
          have := is_flag_byte_len x hf
          have : x.utf8ByteSize ≠ 2 := by simpa using h2
          omega
        simp [hl, hf, h2, hgt]
      · have : ¬ 2 < x.utf8ByteSize := by
          have : x.utf8ByteSize = 2 := by simpa using h2
          omega
        simp [hl, hf, h2, this]
  · simp [hl, is_flag_of_long x hl]

theorem length_le_flatMap_specTokenImage (og : List String) :
    og.length ≤ (og.flatMap specTokenImage).length := by
  induction og with
  | nil => simp
  | cons x og ih =>
    have h1 : 1 ≤ (specTokenImage x).length := by
      rcases h : specTokenImage x with - | ⟨y, ys⟩
      · exact absurd h (specTokenImage_ne_nil x)
      · simp
    simp only [List.flatMap_cons, List.length_append, List.length_cons]
    omega

/-- Claim C5: `separate_flags` maps each short flag of byte length `> 2`
to one single-character short flag per character after the leading `-`
(in order), and every other token to itself; hence the output is at
least as long as the input. -/
theorem c5_separate_flags_normalization (og : List String) :
    separate_flags og = og.flatMap specTokenImage ∧
      og.length ≤ (separate_flags og).length := by
  have he : separate_flags og = og.flatMap specTokenImage := by
    unfold separate_flags
    induction og with
    | nil => rfl
    | cons x og ih =>
      simp only [List.flatMap_cons, ih, sepImage_eq_specTokenImage]
  exact ⟨he, he ▸ length_le_flatMap_specTokenImage og⟩

/-! ## C7: short-flag bundles normalize losslessly -/

theorem separate_flags_append (l l' : List String) :
    separate_flags (l ++ l') = separate_flags l ++ separate_flags l' := by
  unfold separate_flags
  exact List.flatMap_append ..

/-- Claim C7: Parsing a stream containing the bundled token `-abc` is the
same as parsing the stream with that token replaced by `-a -b -c`: the
normalization of line 171 maps both streams to the same token vector,
and `parse` depends on the stream only through it.  (This holds for
*every* registry, in particular for registries of independent switch
options.) -/
theorem c7_bundle_equivalence (p : ArgParser) (xs ys : List String) :
    parse p (xs ++ "-abc" :: ys) = parse p (xs ++ "-a" :: "-b" :: "-c" :: ys) := by
  have h : separate_flags (xs ++ "-abc" :: ys) =
      separate_flags (xs ++ "-a" :: "-b" :: "-c" :: ys) := by
    have h1 : separate_flags ["-abc"] = ["-a", "-b", "-c"] := rfl
    have h2 : separate_flags ["-a", "-b", "-c"] = ["-a", "-b", "-c"] := rfl
    rw [show ("-abc" :: ys) = ["-abc"] ++ ys from rfl]
    rw [show ("-a" :: "-b" :: "-c" :: ys) = ["-a", "-b", "-c"] ++ ys from rfl]
    simp only [separate_flags_append]
    rw [h1, h2]
  unfold parse
  rw [h]

/-! ## C8: parse is stateless and deterministic -/

/-- Claim C8: `parse` is a pure function of the registry and the token
stream: the receiver of the method call comes back unchanged (the Rust
method borrows `self` immutably and clones the option map before
matching), and two calls with identical registry and identical input
produce identical outcomes.  In this shallow embedding both facts are
structural: `parse` is a function. -/
theorem c8_parse_stateless (p : ArgParser) (args : List String) :
    (parseCall p args).2 = p ∧ (parseCall p args).1 = parse p args ∧
      parse p args = parse p args :=
  ⟨rfl, rfl, rfl⟩


/-! ## procOption characterization -/

theorem windowBad_eq_false_iff (rest : Option (List String)) :
    windowBad rest = false ↔
      ∃ r0 rtl, rest = some (r0 :: rtl) ∧ is_flag r0 = false ∧ is_long_flag r0 = false := by
  unfold windowBad
  split
  · rename_i r0 rtl
    simp only [Bool.or_eq_false_iff]
    constructor
    · rintro ⟨h1, h2⟩; exact ⟨r0, rtl, rfl, h1, h2⟩
    · rintro ⟨r0', rtl', heq, h1, h2⟩
      obtain ⟨rfl, rfl⟩ := by simpa using heq
      exact ⟨h1, h2⟩
  · rename_i hne
    constructor
    · intro hc; cases hc
    · rintro ⟨r0, rtl, heq, -, -⟩
      exact absurd heq (hne r0 rtl)

theorem mwindows_nil (n : String) (fl : Char) : mwindows n fl [] = [] := rfl

theorem mwindows_cons_pos (n : String) (fl : Char) (f : String) (rest : Option (List String))
    (ws : List (String × Option (List String))) (hm : matchesTok n fl f = true) :
    mwindows n fl ((f, rest) :: ws) = (f, rest) :: mwindows n fl ws := by
  simp [mwindows, hm]

theorem mwindows_cons_neg (n : String) (fl : Char) (f : String) (rest : Option (List String))
    (ws : List (String × Option (List String))) (hm : matchesTok n fl f = false) :
    mwindows n fl ((f, rest) :: ws) = mwindows n fl ws := by
  simp [mwindows, hm]

/-! One-step unfolding lemmas for `procOption`, one per option kind. -/

theorem procOption_cons_skip (n f : String) (rest : Option (List String))
    (ws : List (String × Option (List String))) (a : Arg) (t : List String)
    (hm : matchesTok n a.flag f = false) :
    procOption n ((f, rest) :: ws) a t = procOption n ws a t := by
  simp [procOption, hm]

theorem procOption_cons_flag (n f : String) (rest : Option (List String))
    (ws : List (String × Option (List String))) (a : Arg) (t : List String)
    (hty : a.type_ = .flag) (hm : matchesTok n a.flag f = true) :
    procOption n ((f, rest) :: ws) a t =
      procOption n ws { a with count := a.count + 1, val := some "true" } (t ++ [f]) := by
  obtain ⟨av, ac, ar, afl, ah, aty⟩ := a
  simp only [Arg.type_] at hty
  subst hty
  simp only [Arg.flag] at hm
  simp [procOption, hm]

theorem procOption_cons_option_bad (n f : String) (rest : Option (List String))
    (ws : List (String × Option (List String))) (a : Arg) (t : List String)
    (hty : a.type_ = .option) (hm : matchesTok n a.flag f = true)
    (hb : windowBad rest = true) :
    procOption n ((f, rest) :: ws) a t = .error (missingValueMsg n) := by
  obtain ⟨av, ac, ar, afl, ah, aty⟩ := a
  simp only [Arg.type_] at hty
  subst hty
  simp only [Arg.flag] at hm
  rcases rest with - | r
  · simp [procOption, hm]
  · rcases r with - | ⟨r0, rtl⟩
    · simp [procOption, hm]
    · have hflg : (is_flag r0 || is_long_flag r0) = true := by simpa [windowBad] using hb
      simp [procOption, hm, hflg]

theorem procOption_cons_option_good (n f r0 : String) (rtl : List String)
    (ws : List (String × Option (List String))) (a : Arg) (t : List String)
    (hty : a.type_ = .option) (hm : matchesTok n a.flag f = true)
    (hf0 : is_flag r0 = false) (hl0 : is_long_flag r0 = false) :
    procOption n ((f, some (r0 :: rtl)) :: ws) a t =
      procOption n ws { a with count := a.count + 1, val := some r0 }
        (t ++ [f] ++ [r0]) := by
  obtain ⟨av, ac, ar, afl, ah, aty⟩ := a
  simp only [Arg.type_] at hty
  subst hty
  simp only [Arg.flag] at hm
  simp [procOption, hm, hf0, hl0]

theorem procOption_cons_list_none (n f : String)
    (ws : List (String × Option (List String))) (a : Arg) (t : List String)
    (hty : a.type_ = .list ∨ a.type_ = .dict) (hm : matchesTok n a.flag f = true) :
    procOption n ((f, none) :: ws) a t = .error (missingValueMsg n) := by
  obtain ⟨av, ac, ar, afl, ah, aty⟩ := a
  simp only [Arg.type_] at hty
  simp only [Arg.flag] at hm
  rcases hty with rfl | rfl <;> simp [procOption, hm]

theorem procOption_cons_list_some (n f : String) (r : List String)
    (ws : List (String × Option (List String))) (a : Arg) (t : List String)
    (hty : a.type_ = .list ∨ a.type_ = .dict) (hm : matchesTok n a.flag f = true) :
    procOption n ((f, some r) :: ws) a t =
      procOption n ws
        { a with count := a.count + 1,
                 val := some (joinSpc (r.takeWhile (fun x => !(is_flag x || is_long_flag x)))) }
        (t ++ [f] ++ r.takeWhile (fun x => !(is_flag x || is_long_flag x))) := by
  obtain ⟨av, ac, ar, afl, ah, aty⟩ := a
  simp only [Arg.type_] at hty
  simp only [Arg.flag] at hm
  rcases hty with rfl | rfl <;> simp [procOption, hm]

theorem procOption_cons_positional (n f : String) (rest : Option (List String))
    (ws : List (String × Option (List String))) (a : Arg) (t : List String)
    (i : Nat) (hty : a.type_ = .positional i) (hm : matchesTok n a.flag f = true) :
    procOption n ((f, rest) :: ws) a t =
      procOption n ws { a with count := a.count + 1 } (t ++ [f]) := by
  obtain ⟨av, ac, ar, afl, ah, aty⟩ := a
  simp only [Arg.type_] at hty
  subst hty
  simp only [Arg.flag] at hm
  simp [procOption, hm]

/-- A `Value`-kind option whose matched windows include a bad one makes
the whole processing fail with the missing-value error naming it. -/
theorem procOption_option_error (n : String) (ws : List (String × Option (List String)))
    (a : Arg) (t : List String) (hty : a.type_ = .option)
    (hbad : ∃ w ∈ ws, matchesTok n a.flag w.1 = true ∧ windowBad w.2 = true) :
    procOption n ws a t = .error (missingValueMsg n) := by
  induction ws generalizing a t with
  | nil => simp at hbad
  | cons w ws ih =>
    obtain ⟨f, rest⟩ := w
    rcases hbad with ⟨w', hw', hm', hb'⟩
    by_cases hm : matchesTok n a.flag f = true
    · by_cases hb : windowBad rest = true
      · exact procOption_cons_option_bad n f rest ws a t hty hm hb
      · rw [Bool.not_eq_true] at hb
        rcases (windowBad_eq_false_iff rest).1 hb with ⟨r0, rtl, rfl, hf0, hl0⟩
        rw [procOption_cons_option_good n f r0 rtl ws a t hty hm hf0 hl0]
        refine ih _ _ (by simpa using hty) ?_
        rcases List.mem_cons.1 hw' with heq | htail
        · exfalso; subst heq
          simp [windowBad, hf0, hl0] at hb'
        · exact ⟨w', htail, by simpa using hm', hb'⟩
    · rw [Bool.not_eq_true] at hm
      rw [procOption_cons_skip n f rest ws a t hm]
      refine ih a t hty ?_
      rcases List.mem_cons.1 hw' with heq | htail
      · exfalso; subst heq; rw [hm'] at hm; cases hm
      · exact ⟨w', htail, hm', hb'⟩

/-- A `Value`-kind option all of whose matched windows are good
processes to success: per match it consumes the flag token and exactly
the one following token, increments the match counter, and keeps the
last match's following token as value. -/
theorem procOption_option_ok (n : String) (ws : List (String × Option (List String)))
    (a : Arg) (t : List String) (hty : a.type_ = .option)
    (hgood : ∀ w ∈ ws, matchesTok n a.flag w.1 = true → windowBad w.2 = false) :
    ∃ a', procOption n ws a t = .ok (a', t ++ optConsumed (mwindows n a.flag ws)) ∧
      a'.count = a.count + (mwindows n a.flag ws).length ∧
      a'.val = lastVal (mwindows n a.flag ws) a.val ∧
      a'.flag = a.flag ∧ a'.required = a.required ∧ a'.type_ = a.type_ ∧ a'.help = a.help := by
  induction ws generalizing a t with
  | nil =>
    exact ⟨a, by simp [procOption, mwindows, optConsumed], by simp [mwindows],
      by simp [mwindows, lastVal], rfl, rfl, rfl, rfl⟩
  | cons w ws ih =>
    obtain ⟨f, rest⟩ := w
    by_cases hm : matchesTok n a.flag f = true
    · have hb : windowBad rest = false := hgood (f, rest) (List.mem_cons_self ..) hm
      rcases (windowBad_eq_false_iff rest).1 hb with ⟨r0, rtl, rfl, hf0, hl0⟩
      rw [procOption_cons_option_good n f r0 rtl ws a t hty hm hf0 hl0]
      rcases ih { a with count := a.count + 1, val := some r0 } (t ++ [f] ++ [r0])
          (by simpa using hty)
          (fun w hw hmw => hgood w (List.mem_cons_of_mem _ hw) (by simpa using hmw))
        with ⟨a', hok, hcount, hval, hflag, hreq, htyp, hhelp⟩
      rw [mwindows_cons_pos n a.flag f _ ws hm]
      refine ⟨a', ?_, ?_, ?_, by simpa using hflag, by simpa using hreq,
        by simpa using htyp, by simpa using hhelp⟩
      · rw [hok]
        simp [optConsumed, restHead, List.append_assoc]
      · rw [hcount]
        simp only [List.length_cons]
        omega
      · rw [hval]
        simp [lastVal, restHead]
    · rw [Bool.not_eq_true] at hm
      rw [procOption_cons_skip n f rest ws a t hm]
      rw [mwindows_cons_neg n a.flag f rest ws hm]
      exact ih a t hty (fun w hw hmw => hgood w (List.mem_cons_of_mem _ hw) hmw)


/-- A `List`/`Dict`-kind option with a matched window whose remainder is
absent makes the whole processing fail with the missing-value error
naming it. -/
theorem procOption_list_error (n : String) (ws : List (String × Option (List String)))
    (a : Arg) (t : List String) (hty : a.type_ = .list ∨ a.type_ = .dict)
    (hbad : ∃ w ∈ ws, matchesTok n a.flag w.1 = true ∧ w.2 = none) :
    procOption n ws a t = .error (missingValueMsg n) := by
  induction ws generalizing a t with
  | nil => simp at hbad
  | cons w ws ih =>
    obtain ⟨f, rest⟩ := w
    rcases hbad with ⟨w', hw', hm', hb'⟩
    by_cases hm : matchesTok n a.flag f = true
    · rcases rest with - | r
      · exact procOption_cons_list_none n f ws a t hty hm
      · rw [procOption_cons_list_some n f r ws a t hty hm]
        refine ih _ _ (by rcases hty with h | h <;> simp [h]) ?_
        rcases List.mem_cons.1 hw' with heq | htail
        · exfalso; subst heq; cases hb'
        · exact ⟨w', htail, by simpa using hm', hb'⟩
    · rw [Bool.not_eq_true] at hm
      rw [procOption_cons_skip n f rest ws a t hm]
      refine ih a t hty ?_
      rcases List.mem_cons.1 hw' with heq | htail
      · exfalso; subst heq; rw [hm'] at hm; cases hm
      · exact ⟨w', htail, hm', hb'⟩

theorem notFlagTok_eq (x : String) : notFlagTok x = (!is_flag x && !is_long_flag x) := by
  simp [notFlagTok]

theorem takeWhile_notFlagTok (r : List String) :
    r.takeWhile notFlagTok = r.takeWhile (fun x => !is_flag x && !is_long_flag x) := by
  congr 1
  funext x
  simp [notFlagTok]

/-- A `List`/`Dict`-kind option all of whose matched windows have a
present remainder processes to success: per match it consumes the flag
token plus the run of following tokens up to (not including) the first
flag-shaped one, increments the match counter, and keeps the joined
run of the last match as value. -/
theorem procOption_list_ok (n : String) (ws : List (String × Option (List String)))
    (a : Arg) (t : List String) (hty : a.type_ = .list ∨ a.type_ = .dict)
    (hgood : ∀ w ∈ ws, matchesTok n a.flag w.1 = true → w.2.isSome = true) :
    ∃ a', procOption n ws a t = .ok (a', t ++ listConsumed (mwindows n a.flag ws)) ∧
      a'.count = a.count + (mwindows n a.flag ws).length ∧
      a'.val = listLastVal (mwindows n a.flag ws) a.val ∧
      a'.flag = a.flag ∧ a'.required = a.required ∧ a'.type_ = a.type_ ∧ a'.help = a.help := by
  induction ws generalizing a t with
  | nil =>
    exact ⟨a, by simp [procOption, mwindows, listConsumed], by simp [mwindows],
      by simp [mwindows, listLastVal], rfl, rfl, rfl, rfl⟩
  | cons w ws ih =>
    obtain ⟨f, rest⟩ := w
    by_cases hm : matchesTok n a.flag f = true
    · have hb : rest.isSome = true := hgood (f, rest) (List.mem_cons_self ..) hm
      rcases rest with - | r
      · cases hb
      · rw [procOption_cons_list_some n f r ws a t hty hm]
        rcases ih ({ a with count := a.count + 1, val := some (joinSpc (r.takeWhile (fun x => !(is_flag x || is_long_flag x)))) }) (t ++ [f] ++ r.takeWhile (fun x => !(is_flag x || is_long_flag x))) (by rcases hty with h | h <;> simp [h]) (fun w hw hmw => hgood w (List.mem_cons_of_mem _ hw) (by simpa using hmw)) with ⟨a', hok, hcount, hval, hflag, hreq, htyp, hhelp⟩
        rw [mwindows_cons_pos n a.flag f _ ws hm]
        refine ⟨a', ?_, ?_, ?_, by simpa using hflag, by simpa using hreq,
            by simpa using htyp, by simpa using hhelp⟩
        · rw [hok]
          simp [listConsumed, takeOf, notFlagTok_eq, List.append_assoc]
          rw [takeWhile_notFlagTok]
        · rw [hcount]
          simp only [List.length_cons]
          omega
        · rw [hval]
          simp [listLastVal, takeOf, notFlagTok_eq]
          rw [takeWhile_notFlagTok]
    · rw [Bool.not_eq_true] at hm
      rw [procOption_cons_skip n f rest ws a t hm]
      rw [mwindows_cons_neg n a.flag f rest ws hm]
      exact ih a t hty (fun w hw hmw => hgood w (List.mem_cons_of_mem _ hw) hmw)

/-- Every match increments the option's counter, whatever its kind:
a successful processing run adds exactly the number of matched windows. -/
theorem procOption_ok_count (n : String) (ws : List (String × Option (List String)))
    (a : Arg) (t : List String) (a' : Arg) (t' : List String)
    (h : procOption n ws a t = .ok (a', t')) :
    a'.count = a.count + (mwindows n a.flag ws).length := by
  induction ws generalizing a t with
  | nil =>
    obtain ⟨rfl, rfl⟩ : a = a' ∧ t = t' := by
      have h' : Except.ok (ε := String) (a, t) = .ok (a', t') := h
      simpa using h'
    simp [mwindows]
  | cons w ws ih =>
    obtain ⟨f, rest⟩ := w
    by_cases hm : matchesTok n a.flag f = true
    · rw [mwindows_cons_pos n a.flag f _ ws hm]
      rcases hty : a.type_ with - | - | - | - | i
      · rcases rest with - | r
        · rw [procOption_cons_option_bad n f none ws a t hty hm rfl] at h
          cases h
        · rcases r with - | ⟨r0, rtl⟩
          · rw [procOption_cons_option_bad n f (some []) ws a t hty hm rfl] at h
            cases h
          · by_cases hf0 : is_flag r0 = true
            · rw [procOption_cons_option_bad n f (some (r0 :: rtl)) ws a t hty hm
                (by simp [windowBad, hf0])] at h
              cases h
            · by_cases hl0 : is_long_flag r0 = true
              · rw [procOption_cons_option_bad n f (some (r0 :: rtl)) ws a t hty hm
                  (by simp [windowBad, hl0])] at h
                cases h
              · rw [Bool.not_eq_true] at hf0 hl0
                rw [procOption_cons_option_good n f r0 rtl ws a t hty hm hf0 hl0] at h
                have hc := ih _ _ h
                simp only [List.length_cons]
                simp at hc
                omega
      · rw [procOption_cons_flag n f rest ws a t hty hm] at h
        have hc := ih _ _ h
        simp only [List.length_cons]
        simp at hc
        omega
      · rcases rest with - | r
        · rw [procOption_cons_list_none n f ws a t (Or.inl hty) hm] at h
          cases h
        · rw [procOption_cons_list_some n f r ws a t (Or.inl hty) hm] at h
          have hc := ih _ _ h
          simp only [List.length_cons]
          simp at hc
          omega
      · rcases rest with - | r
        · rw [procOption_cons_list_none n f ws a t (Or.inr hty) hm] at h
          cases h
        · rw [procOption_cons_list_some n f r ws a t (Or.inr hty) hm] at h
          have hc := ih _ _ h
          simp only [List.length_cons]
          simp at hc
          omega
      · rw [procOption_cons_positional n f rest ws a t i hty hm] at h
        have hc := ih _ _ h
        simp only [List.length_cons]
        simp at hc
        omega
    · rw [Bool.not_eq_true] at hm
      rw [procOption_cons_skip n f rest ws a t hm] at h
      rw [mwindows_cons_neg n a.flag f rest ws hm]
      exact ih a t h

/-! ## Lifting option processing to the whole parse -/

/-- If every option before `(n, a)` in iteration order processes
cleanly and `(n, a)` itself errors, the flag-resolution phase reports
exactly that error (fail-fast). -/
theorem phase1_error_lift (pre : List (String × Arg)) (n : String) (a : Arg)
    (post : List (String × Arg)) (argvec t0 : List String) (e : String)
    (hpre : ∀ x ∈ pre, ∀ t, ∃ y, procOption x.1 (slide argvec) x.2 t = .ok y)
    (herr : ∀ t, procOption n (slide argvec) a t = .error e) :
    phase1 (pre ++ (n, a) :: post) argvec t0 = .error e := by
  induction pre generalizing t0 with
  | nil =>
    simp only [List.nil_append, phase1]
    rw [herr t0]
  | cons x pre ih =>
    obtain ⟨m, b⟩ := x
    obtain ⟨⟨b', t1⟩, hok⟩ := hpre (m, b) (List.mem_cons_self ..) t0
    have h2 := ih t1 (fun x hx t => hpre x (List.mem_cons_of_mem _ hx) t)
    simp only [List.cons_append, phase1, hok, List.append_eq, h2]

/-- When the registry is nonempty and not finalized, `parse` is the
core computation on the normalized token vector. -/
theorem parse_eq_core (p : ArgParser) (args : List String)
    (hd : p.done = false) (hne : p.arguments ≠ []) :
    parse p args = parseCore p (separate_flags args) := by
  simp [parse, hd, hne]

/-! ## C1: Value-kind consumption -/

/-- Claim C1: For a `Value`-kind option `(n, a)` of the registry whose
predecessors in iteration order process cleanly: if some window
matching the option is bad (remainder absent, or first remainder token
flag-shaped), `parse` fails with the missing-value error naming `n`
and produces no outcome; if every matching window is good, processing
the option consumes, per match, the flag token and exactly one
following token, which becomes the option's value (last match wins). -/
theorem c1_value_option_consumption
    (p : ArgParser) (args : List String) (n : String) (a : Arg)
    (pre post : List (String × Arg))
    (hdone : p.done = false)
    (hargs : p.arguments = pre ++ (n, a) :: post)
    (hty : a.type_ = .option)
    (hpre : ∀ x ∈ pre, ∀ t, ∃ y, procOption x.1 (slide (separate_flags args)) x.2 t = .ok y) :
    ((∃ w ∈ slide (separate_flags args), matchesTok n a.flag w.1 = true ∧ windowBad w.2 = true) →
        parse p args = .error (missingValueMsg n)) ∧
    ((∀ w ∈ slide (separate_flags args), matchesTok n a.flag w.1 = true → windowBad w.2 = false) →
      ∀ t, ∃ a',
        procOption n (slide (separate_flags args)) a t =
          .ok (a', t ++ optConsumed (mwindows n a.flag (slide (separate_flags args)))) ∧
        a'.val = lastVal (mwindows n a.flag (slide (separate_flags args))) a.val ∧
        a'.count = a.count + (mwindows n a.flag (slide (separate_flags args))).length) := by
  constructor
  · intro hbad
    have herr : ∀ t, procOption n (slide (separate_flags args)) a t =
        .error (missingValueMsg n) :=
      fun t => procOption_option_error n _ a t hty hbad
    have hne : p.arguments ≠ [] := by rw [hargs]; simp
    rw [parse_eq_core p args hdone hne]
    have hph : phase1 p.arguments (separate_flags args) [] = .error (missingValueMsg n) := by
      rw [hargs]
      exact phase1_error_lift pre n a post (separate_flags args) [] _ hpre herr
    simp [parseCore, hph]
  · intro hgood t
    obtain ⟨a', hok, hcount, hval, -, -, -, -⟩ :=
      procOption_option_ok n (slide (separate_flags args)) a t hty hgood
    exact ⟨a', hok, hval, hcount⟩

/-- Registry with a single required-free `Value`-kind option `x`. -/
def w1P : ArgParser := ⟨[("x", ⟨none, 0, false, 'x', "", .option⟩)], "go", false⟩

theorem c1_value_option_consumption_witness :
    parse w1P ["prog", "-x"] = .error (missingValueMsg "x") := by
  have h := c1_value_option_consumption w1P ["prog", "-x"] "x"
    ⟨none, 0, false, 'x', "", .option⟩ [] [] rfl rfl rfl
    (by intro x hx; cases hx)
  exact h.1 ⟨("-x", none), by decide, by decide, by decide⟩

/-! ## C3: required-arguments validation -/

/-- Claim C3: With defaults seeded into each option's value at
registration (third conjunct), and given that flag-option resolution
succeeded, `parse` returns a successful outcome exactly when, after
positional resolution, every `required` option has a resolved value;
otherwise it fails with the single aggregate missing-required error. -/
theorem c3_required_validation
    (p : ArgParser) (args : List String) (na : List (String × Arg)) (taken : List String)
    (hdone : p.done = false) (hne : p.arguments ≠ [])
    (hp1 : phase1 p.arguments (separate_flags args) [] = .ok (na, taken)) :
    ((phase2 na (availTokens (separate_flags args) taken)).all
        (fun kv => !kv.2.required || kv.2.val.isSome) = true →
      parse p args = .ok ⟨phase2 na (availTokens (separate_flags args) taken), p.name⟩) ∧
    ((∃ kv ∈ phase2 na (availTokens (separate_flags args) taken),
        kv.2.required = true ∧ kv.2.val = none) →
      parse p args = .error "Not all required arguments are found") ∧
    (∀ (q : ArgParser) (nm : String) (d : Option String) (c : Char) (r : Bool)
        (hs : String) (ty : ArgType),
      (nm, ⟨d, 0, r, c, hs, ty⟩) ∈ (q.add_opt nm d c r hs ty).arguments) := by
  refine ⟨?_, ?_, ?_⟩
  · intro hall
    rw [parse_eq_core p args hdone hne]
    simp [parseCore, hp1, hall]
  · intro hex
    rw [parse_eq_core p args hdone hne]
    have hall : ¬ ((phase2 na (availTokens (separate_flags args) taken)).all
        (fun kv => !kv.2.required || kv.2.val.isSome) = true) := by
      rcases hex with ⟨kv, hkv, hreq, hval⟩
      intro hall
      have hc := (List.all_eq_true.mp hall) kv hkv
      rw [hreq, hval] at hc
      simp at hc
    simp [parseCore, hp1, hall]
  · intro q nm d c r hs ty
    simp [ArgParser.add_opt]

/-- Registry with a single non-required switch option `m`. -/
def w3P : ArgParser := ⟨[("m", ⟨some "false", 0, false, 'm', "", .flag⟩)], "go", false⟩

theorem c3_required_validation_witness :
    parse w3P ["prog"] = .ok ⟨[("m", ⟨some "false", 0, false, 'm', "", .flag⟩)], "go"⟩ := by
  have h := c3_required_validation w3P ["prog"]
    [("m", ⟨some "false", 0, false, 'm', "", .flag⟩)] [] rfl (by decide) (by decide)
  exact h.1 (by decide)

/-! ## C4: consumption bookkeeping is by token text -/

theorem not_mem_availTokens_of (argvec taken : List String) (t : String) (ht : t ∈ taken) :
    t ∉ availTokens argvec taken := by
  intro hc
  unfold availTokens at hc
  rw [List.mem_filter] at hc
  have hcont : taken.contains t = true := List.elem_iff.mpr ht
  rw [hcont] at hc
  simp at hc

theorem mem_availTokens_of (argvec taken : List String) (s : String)
    (hs1 : s ∈ argvec.drop 1) (hs2 : s ∉ taken) : s ∈ availTokens argvec taken := by
  unfold availTokens
  rw [List.mem_filter]
  refine ⟨hs1, ?_⟩
  have hcont : taken.contains s = false := by
    rcases hc : taken.contains s with - | -
    · rfl
    · exact absurd (List.elem_iff.mp hc) hs2
  rw [hcont]
  rfl

/-- Registry with a `Value`-kind option `x` and a positional `p0`. -/
def cex4P : ArgParser :=
  ⟨[("x", ⟨none, 0, false, 'x', "", .option⟩),
    ("p0", ⟨none, 0, false, 'p', "", .positional 0⟩)], "go", false⟩

/-- Claim C4, counterexample: In `prog -x foo foo`, the `Value`-kind
option `x` consumes only the *first* occurrence of `foo`, yet the
second, distinct occurrence is **not** available to the positional
option `p0` (its value stays unset): `taken_up` tracks consumed tokens
by string value (`Vec::contains` compares `String`s), not by
reference identity, so every equal-text occurrence is filtered out. -/
theorem c4_identity_tracking_counterexample :
    resolvedVal (parse cex4P ["prog", "-x", "foo", "foo"]) "x" = some (some "foo") ∧
    resolvedVal (parse cex4P ["prog", "-x", "foo", "foo"]) "p0" = some none := by
  decide

/-- Claim C4, amended: Consumed tokens are tracked by textual value:
any token whose text occurs in the consumed list is excluded from the
sequence available to positional resolution — including occurrences
that were never themselves consumed — while every token (after the
program name) whose text was never consumed remains available. -/
theorem c4_value_tracking (argvec taken : List String) (t s : String)
    (ht : t ∈ taken) (hs1 : s ∈ argvec.drop 1) (hs2 : s ∉ taken) :
    t ∉ availTokens argvec taken ∧ s ∈ availTokens argvec taken :=
  ⟨not_mem_availTokens_of argvec taken t ht, mem_availTokens_of argvec taken s hs1 hs2⟩

theorem c4_value_tracking_witness :
    ("a" ∈ (["a"] : List String)) ∧ ("b" ∈ (["p", "a", "b"].drop 1)) ∧
      ("b" ∉ (["a"] : List String)) ∧
      ("a" ∉ availTokens ["p", "a", "b"] ["a"] ∧ "b" ∈ availTokens ["p", "a", "b"] ["a"]) :=
  ⟨by decide, by decide, by decide,
    c4_value_tracking ["p", "a", "b"] ["a"] "a" "b" (by decide) (by decide) (by decide)⟩

/-! ## C2: MultiValue / KeyValueList consumption -/

theorem joinSpc_foldl (xs : List String) (acc : String) :
    xs.foldl (fun acc e => acc ++ e ++ " ") acc = acc ++ joinSpc xs := by
  induction xs generalizing acc with
  | nil => simp [joinSpc]
  | cons x xs ih =>
    rw [List.foldl_cons, ih]
    have h2 : joinSpc (x :: xs) = ("" ++ x ++ " ") ++ joinSpc xs := by
      rw [joinSpc, List.foldl_cons, ih]
    rw [h2]
    simp [String.append_assoc]

/-- The join of lines 204-208 appends each taken token followed by one
space (hence the trailing space), starting from the empty string. -/
theorem joinSpc_cons (x : String) (xs : List String) :
    joinSpc (x :: xs) = x ++ " " ++ joinSpc xs := by
  rw [joinSpc, List.foldl_cons, joinSpc_foldl]
  simp [String.append_assoc]

/-- Registry with a `List`-kind option `f` and a positional `p1`. -/
def cex2P : ArgParser :=
  ⟨[("f", ⟨none, 0, false, 'f', "", .list⟩),
    ("p1", ⟨none, 0, false, 'p', "", .positional 1⟩)], "go", false⟩

/-- Claim C2, counterexample: Two discrepancies with the claim.
(1) In `prog -f 1 2`, the raw value stored for `f` is `"1 2 "` — each
taken token is followed by a space — not the pure single-space join
`"1 2"`. (2) In `prog -f foo -x foo`, consumption stops at the
flag-shaped `-x` and the trailing `foo` is *not* marked consumed, yet
it is **not** available to the positional option `p1` (which stays
unset), because its text equals that of the consumed first `foo`. -/
theorem c2_multivalue_counterexample :
    resolvedVal (parse cex2P ["prog", "-f", "1", "2"]) "f" = some (some "1 2 ") ∧
    "1 2 " ≠ String.intercalate " " ["1", "2"] ∧
    resolvedVal (parse cex2P ["prog", "-f", "foo", "-x", "foo"]) "f" = some (some "foo ") ∧
    resolvedVal (parse cex2P ["prog", "-f", "foo", "-x", "foo"]) "p1" = some none := by
  refine ⟨by decide, by decide, by decide, by decide⟩

/-- Claim C2, amended: For a `List`/`Dict`-kind option `(n, a)` of the
registry whose predecessors in iteration order process cleanly: if
some matching window has an absent remainder, `parse` fails with the
missing-value error naming `n`; if every matching window has a present
remainder, processing consumes, per match, the flag token plus exactly
the run of following tokens up to (not including) the first
flag-shaped token, and stores as raw value the taken run joined with a
single space *after each token* (trailing space included; the empty
run yields `""`, and `joinSpc_cons` in the third conjunct pins the
format).  Tokens at and after the boundary are not marked consumed,
and any token after the program name whose text was never consumed
remains available to positional resolution (fourth conjunct). -/
theorem c2_multivalue_consumption
    (p : ArgParser) (args : List String) (n : String) (a : Arg)
    (pre post : List (String × Arg))
    (hdone : p.done = false)
    (hargs : p.arguments = pre ++ (n, a) :: post)
    (hty : a.type_ = .list ∨ a.type_ = .dict)
    (hpre : ∀ x ∈ pre, ∀ t, ∃ y, procOption x.1 (slide (separate_flags args)) x.2 t = .ok y) :
    ((∃ w ∈ slide (separate_flags args), matchesTok n a.flag w.1 = true ∧ w.2 = none) →
        parse p args = .error (missingValueMsg n)) ∧
    ((∀ w ∈ slide (separate_flags args), matchesTok n a.flag w.1 = true → w.2.isSome = true) →
      ∀ t, ∃ a',
        procOption n (slide (separate_flags args)) a t =
          .ok (a', t ++ listConsumed (mwindows n a.flag (slide (separate_flags args)))) ∧
        a'.val = listLastVal (mwindows n a.flag (slide (separate_flags args))) a.val ∧
        a'.count = a.count + (mwindows n a.flag (slide (separate_flags args))).length) ∧
    (∀ (x : String) (xs : List String),
      joinSpc (x :: xs) = x ++ " " ++ joinSpc xs ∧ joinSpc ([] : List String) = "") ∧
    (∀ (argvec taken : List String) (s : String),
      s ∈ argvec.drop 1 → s ∉ taken → s ∈ availTokens argvec taken) := by
  refine ⟨?_, ?_, ?_, ?_⟩
  · intro hbad
    have herr : ∀ t, procOption n (slide (separate_flags args)) a t =
        .error (missingValueMsg n) :=
      fun t => procOption_list_error n _ a t hty hbad
    have hne : p.arguments ≠ [] := by rw [hargs]; simp
    rw [parse_eq_core p args hdone hne]
    have hph : phase1 p.arguments (separate_flags args) [] = .error (missingValueMsg n) := by
      rw [hargs]
      exact phase1_error_lift pre n a post (separate_flags args) [] _ hpre herr
    simp [parseCore, hph]
  · intro hgood t
    obtain ⟨a', hok, hcount, hval, -, -, -, -⟩ :=
      procOption_list_ok n (slide (separate_flags args)) a t hty hgood
    exact ⟨a', hok, hval, hcount⟩
  · exact fun x xs => ⟨joinSpc_cons x xs, rfl⟩
  · exact fun argvec taken s h1 h2 => mem_availTokens_of argvec taken s h1 h2

/-- Registry with a single non-required `List`-kind option `f`. -/
def w2P : ArgParser := ⟨[("f", ⟨none, 0, false, 'f', "", .list⟩)], "go", false⟩

theorem c2_multivalue_consumption_witness :
    parse w2P ["prog", "-f"] = .error (missingValueMsg "f") := by
  have h := c2_multivalue_consumption w2P ["prog", "-f"] "f"
    ⟨none, 0, false, 'f', "", .list⟩ [] [] rfl rfl (Or.inl rfl)
    (by intro x hx; cases hx)
  exact h.1 ⟨("-f", none), by decide, by decide, rfl⟩

/-! ## C9: all-or-nothing multi-value conversion -/

theorem vecStep_enumFrom {α : Type _} (l : List (Option α)) (k : Nat)
    (acc : Option (List α)) (hk : k ≠ 0) :
    (l.enumFrom k).foldl vecStep acc =
      if l.all Option.isSome then acc.map (fun v => v ++ l.filterMap id) else none := by
  induction l generalizing k acc with
  | nil =>
    simp only [List.enumFrom, List.foldl_nil, List.all_nil, if_true, List.filterMap_nil]
    cases acc <;> simp
  | cons e tl ih =>
    rw [show (e :: tl).enumFrom k = (k, e) :: tl.enumFrom (k + 1) from rfl, List.foldl_cons]
    rcases e with - | x
    · rw [show vecStep acc (k, none) = none from rfl]
      rw [ih (k + 1) none (by omega)]
      simp
    · have hk0 : (k == 0) = false := by simpa using hk
      rw [show vecStep acc (k, some x) =
        if (k == 0) = true then some [x] else acc.map (fun v => v ++ [x]) from rfl]
      rw [hk0]
      simp only [Bool.false_eq_true, if_false]
      rw [ih (k + 1) (acc.map (fun v => v ++ [x])) (by omega)]
      simp only [List.all_cons, Option.isSome_some, Bool.true_and, List.filterMap_cons_some]
      split
      · cases acc <;> simp
      · rfl

theorem all_isSome_map {α : Type _} (pf : String → Option α) (l : List String) :
    (l.map pf).all Option.isSome = l.all (fun c => (pf c).isSome) := by
  induction l with
  | nil => rfl
  | cons a l ih => simp [ih]

/-- Claim C9, counterexample: On the empty raw string there are no
chunks, so every chunk parses (vacuously) — yet `vec_parser` yields
`none`, not the empty sequence: the fold over an empty enumeration
returns its initial accumulator `None`. -/
theorem c9_vec_conversion_counterexample :
    vecParse natPf "" = none ∧ natAllSome (splitWs "") = true ∧
      vecParse natPf "" ≠ some ((splitWs "").filterMap natPf) := by
  refine ⟨by decide, by decide, by decide⟩

/-- Claim C9, amended: `vec_parser` splits the raw string on whitespace
and parses each chunk: if any chunk fails to parse the result is
absent (never a partial sequence); if there is *at least one* chunk
and every chunk parses, the result is the full sequence in order; and
with zero chunks (empty or whitespace-only raw string) the result is
absent rather than the empty sequence. -/
theorem c9_vec_conversion {α : Type _} (pf : String → Option α) (s : String) :
    vecParse pf s =
      if (!(splitWs s).isEmpty && (splitWs s).all fun c => (pf c).isSome) = true
      then some ((splitWs s).filterMap pf) else none := by
  unfold vecParse
  rcases hsp : splitWs s with - | ⟨c, cs⟩
  · simp
  · have hfm : (cs.map pf).filterMap id = cs.filterMap pf := by
      rw [List.filterMap_map]
      simp
    have hall : (cs.map pf).all Option.isSome = cs.all (fun c => (pf c).isSome) :=
      all_isSome_map pf cs
    rw [show ((c :: cs).map pf).enum = (0, pf c) :: (cs.map pf).enumFrom 1 from rfl,
      List.foldl_cons]
    rcases he : pf c with - | x
    · rw [show vecStep none (0, none) = none from rfl]
      rw [vecStep_enumFrom (cs.map pf) 1 none (by omega)]
      have hcond : (((c :: cs).all fun c => (pf c).isSome) : Bool) = false := by
        simp [he]
      simp [hcond]
    · rw [show vecStep none (0, some x) = some [x] from rfl]
      rw [vecStep_enumFrom (cs.map pf) 1 (some [x]) (by omega)]
      rw [hfm, hall]
      simp only [List.isEmpty_cons, Bool.not_false, List.all_cons, he, Option.isSome_some,
        Bool.true_and, List.filterMap_cons]
      split
      · simp [he]
      · rfl

/-! ## C10: duplicate short flags all match -/

/-- Claim C10: Registration never checks short-flag uniqueness: after
`add_opt` under a *different* name, an existing option survives even if
it shares the new option's flag character (first conjunct), and the new
option is stored with its declared fields (second conjunct).  The
constructor registers the built-in `help` switch with short flag `h`
and default `"false"` (third conjunct).  During parse, every option is
scanned against the whole stream independently, so a successful
processing run increments an option's match counter once per window
matching *its own* flag or name — a single flag token occurrence
therefore bumps every option sharing that flag character, and each
consumes following tokens according to its own kind (fourth conjunct,
with the per-kind consumption given by the `procOption` lemmas above). -/
theorem c10_duplicate_short_flags
    (p : ArgParser) (n1 : String) (a1 : Arg) (n2 : String)
    (d : Option String) (c : Char) (r : Bool) (hs : String) (ty : ArgType)
    (nm nq : String) (wsq : List (String × Option (List String)))
    (aq aq' : Arg) (tq tq' : List String)
    (h1 : (n1, a1) ∈ p.arguments) (h2 : n1 ≠ n2)
    (h3 : procOption nq wsq aq tq = .ok (aq', tq')) :
    (n1, a1) ∈ (p.add_opt n2 d c r hs ty).arguments ∧
    (n2, ⟨d, 0, r, c, hs, ty⟩) ∈ (p.add_opt n2 d c r hs ty).arguments ∧
    (ArgParser.new nm).arguments =
      [("help", ⟨some "false", 0, false, 'h', "Show this help message", .flag⟩)] ∧
    aq'.count = aq.count + (mwindows nq aq.flag wsq).length := by
  refine ⟨?_, ?_, rfl, procOption_ok_count nq wsq aq tq aq' tq' h3⟩
  · unfold ArgParser.add_opt
    refine List.mem_append_left _ ?_
    rw [List.mem_filter]
    exact ⟨h1, by simpa using h2⟩
  · unfold ArgParser.add_opt
    exact List.mem_append_right _ (by simp)

theorem c10_duplicate_short_flags_witness :
    (("height", (⟨none, 0, true, 'h', "", .option⟩ : Arg)) ∈
        (ArgParser.mk [("height", ⟨none, 0, true, 'h', "", .option⟩)] "go" false).arguments) ∧
      ("height" ≠ "socks") ∧
      (procOption "m" [("-m", none)] ⟨some "false", 0, false, 'm', "", .flag⟩ [] =
        .ok (⟨some "true", 1, false, 'm', "", .flag⟩, ["-m"])) ∧
      ((("height", (⟨none, 0, true, 'h', "", .option⟩ : Arg)) ∈
          ((ArgParser.mk [("height", ⟨none, 0, true, 'h', "", .option⟩)] "go" false).add_opt
            "socks" none 'h' false "socks" .dict).arguments) ∧
        ("socks", (⟨none, 0, false, 'h', "socks", .dict⟩ : Arg)) ∈
          ((ArgParser.mk [("height", ⟨none, 0, true, 'h', "", .option⟩)] "go" false).add_opt
            "socks" none 'h' false "socks" .dict).arguments ∧
        (ArgParser.new "runner").arguments =
          [("help", ⟨some "false", 0, false, 'h', "Show this help message", .flag⟩)] ∧
        (⟨some "true", 1, false, 'm', "", .flag⟩ : Arg).count =
          (⟨some "false", 0, false, 'm', "", .flag⟩ : Arg).count +
            (mwindows "m" (⟨some "false", 0, false, 'm', "", .flag⟩ : Arg).flag
              [("-m", none)]).length) :=
  ⟨by decide, by decide, by decide,
    c10_duplicate_short_flags
      (ArgParser.mk [("height", ⟨none, 0, true, 'h', "", .option⟩)] "go" false)
      "height" ⟨none, 0, true, 'h', "", .option⟩ "socks" none 'h' false "socks" .dict
      "runner" "m" [("-m", none)] ⟨some "false", 0, false, 'm', "", .flag⟩
      ⟨some "true", 1, false, 'm', "", .flag⟩ [] ["-m"]
      (by decide) (by decide) (by decide)⟩

end Argparse
